import Mathlib

/-!
Verification of the tiered document-compliance analysis pipeline of
`server.js` (smartcontracteditorfinal).  The JavaScript functions are
shallowly embedded: strings are lists of characters (`Str`), the two
external capabilities (ChromaDB retrieval, Anthropic generative analysis)
are oracle parameters, and every JavaScript exception is an explicit
`Except` error.  All definitions are translated from `src/server.js`;
line references are given at each definition.
-/

namespace SCE

/-- Strings are modelled as lists of characters.  (JavaScript string
`length` counts UTF-16 code units; on the ASCII texts handled here that
coincides with the character count.) -/
abbrev Str := List Char

/-- Characters matched by the regex class `\w` (`[A-Za-z0-9_]`; the source
regexes carry no `u` flag, so `\w` is ASCII-only).  Ranges are stated on
code points: 97-122 is a-z, 65-90 is A-Z, 48-57 is 0-9. -/
def isWordChar (c : Char) : Bool :=
  if (97 ≤ c.toNat ∧ c.toNat ≤ 122) ∨ (65 ≤ c.toNat ∧ c.toNat ≤ 90)
     ∨ (48 ≤ c.toNat ∧ c.toNat ≤ 57) ∨ c = '_'
  then true else false

/-- Whether a character is an ASCII capital letter (A-Z). -/
def isUpperAZ (c : Char) : Bool :=
  if 65 ≤ c.toNat ∧ c.toNat ≤ 90 then true else false

/-- Characters matched by the regex class `\s`, restricted to the ASCII
whitespace characters (space, tab, line feed, carriage return, vertical
tab, form feed); the Unicode spaces also in `\s` do not occur in any text
considered here. -/
def isSpaceChar (c : Char) : Bool :=
  if c = ' ' ∨ c = '\t' ∨ c = '\n' ∨ c = '\r' ∨ c = '\x0b' ∨ c = '\x0c'
  then true else false

/-- Sentence-terminal punctuation, the class `[.!?]` (server.js:995). -/
def isTermChar (c : Char) : Bool :=
  if c = '.' ∨ c = '!' ∨ c = '?' then true else false

/-- `String.prototype.toLowerCase` restricted to ASCII (sufficient for the
ASCII inputs considered; non-ASCII letters never survive the `\w`-based
filters downstream anyway). -/
def jsToLower (c : Char) : Char :=
  if 65 ≤ c.toNat ∧ c.toNat ≤ 90 then Char.ofNat (c.toNat + 32) else c

/-- Lowercase a whole string. -/
def lower (s : Str) : Str := s.map jsToLower

/-- `String.prototype.trim`: drop leading and trailing whitespace. -/
def jsTrim (s : Str) : Str :=
  ((s.dropWhile isSpaceChar).reverse.dropWhile isSpaceChar).reverse

/-- Worker for `splitOnRuns`: `acc` is the current field (reversed), `sep`
records whether the previous character belonged to a separator run. -/
def splitFlag (p : Char → Bool) : List Char → List Char → Bool → List (List Char)
  | [], acc, _ => [acc.reverse]
  | c :: cs, acc, sep =>
    if p c then
      if sep then splitFlag p cs [] true
      else acc.reverse :: splitFlag p cs [] true
    else splitFlag p cs (c :: acc) false

/-- JavaScript `String.prototype.split` on a regex `/X+/` for a character
class `X`: fields between maximal runs of `X`-characters, keeping the empty
fields that JavaScript produces at a leading or trailing run. -/
def splitOnRuns (p : Char → Bool) (l : Str) : List Str :=
  splitFlag p l [] false

/-- Count of maximal runs of the character `c0` of length at least 2 — the
number of matches of the regex `/[.]{2,}/g` when `c0` is a period
(server.js:807).  `n` is the length of the run currently being scanned. -/
def countRunsGo (c0 : Char) : List Char → Nat → Nat
  | [], n => if 2 ≤ n then 1 else 0
  | c :: cs, n =>
    if c = c0 then countRunsGo c0 cs (n + 1)
    else (if 2 ≤ n then 1 else 0) + countRunsGo c0 cs 0

/-- Number of matches of `/[.]{2,}/g` in a string. -/
def countPeriodRuns (s : Str) : Nat := countRunsGo '.' s 0

/-- Whether the word `w` occurs at the head of `l` with regex word
boundaries on both sides (`prev` is the character just before `l`, if
any). -/
def wordAt (w : Str) (prev : Option Char) (l : Str) : Bool :=
  (match prev with
   | none => true
   | some c => !(isWordChar c)) &&
  w.isPrefixOf l &&
  (match l.drop w.length with
   | [] => true
   | c :: _ => !(isWordChar c))

/-- Scan counting occurrences of `w` with word boundaries. -/
def countWordGo (w : Str) : Option Char → Str → Nat
  | _, [] => 0
  | prev, c :: cs =>
    (if wordAt w prev (c :: cs) then 1 else 0) + countWordGo w (some c) cs

/-- Number of matches of `/\bW\b/gi` for an all-letter word `W`
(server.js:793, 800): case-insensitive, word boundaries on both sides.
Word boundaries make matches non-overlapping, so this position count equals
the count of the global regex. -/
def countWord (w : Str) (text : Str) : Nat :=
  countWordGo (lower w) none (lower text)

/-- JavaScript `String.prototype.includes`: substring test. -/
def containsSeq (nd : Str) : Str → Bool
  | [] => nd.isEmpty
  | c :: cs => nd.isPrefixOf (c :: cs) || containsSeq nd cs

/-- `pattern.test(text)` for a case-insensitive literal regex `/word/i`. -/
def testCI (pat : Str) (text : Str) : Bool :=
  containsSeq (lower pat) (lower text)

/-- Numeric value of an all-digit string. -/
def digitsToNat (w : Str) : Nat :=
  w.foldl (fun n c => n * 10 + (c.toNat - 48)) 0

/-- Whether a string is an ECMAScript array-index property key: a canonical
decimal numeral whose value is below 2^32 − 1.  Such keys are enumerated
first, in ascending numeric order, by `Object.entries`
(OrdinaryOwnPropertyKeys); all other keys follow in insertion order. -/
def isArrayIndexKey (w : Str) : Bool :=
  !w.isEmpty &&
  w.all (fun c => if '0' ≤ c ∧ c ≤ '9' then true else false) &&
  (if w.head? = some '0' ∧ w ≠ ['0'] then false else true) &&
  decide (digitsToNat w < 4294967295)

/-- Insert `e` into a list before the first element whose rank is not
smaller — the insertion step of a stable ascending sort. -/
def insertAsc {α : Type} (rank : α → Int) (e : α) : List α → List α
  | [] => [e]
  | x :: xs => if rank e ≤ rank x then e :: x :: xs else x :: insertAsc rank e xs

/-- Stable sort ascending by an integer rank.  ECMAScript requires
`Array.prototype.sort` to be stable, and the result of a stable sort by a
total preorder is unique, so this insertion sort computes exactly the
output of the JavaScript sorts (ascending by distance, server.js:617;
descending by frequency via a negated rank, server.js:1048). -/
def sortAsc {α : Type} (rank : α → Int) : List α → List α
  | [] => []
  | e :: rest => insertAsc rank e (sortAsc rank rest)

/-! ## Document chunker (server.js:990-1022) -/

/-- The overlap seed prepended to the chunk after a flush
(server.js:1007-1008): the last `floor(overlap/10)` whitespace-delimited
words of the flushed chunk, joined by single spaces.  JavaScript's
`words.slice(-n)` is the whole array when `n = 0` (since `-0` is `0`) and
the last `n` elements otherwise. -/
def chunkOverlap (overlapSize : Nat) (currentChunk : Str) : Str :=
  List.intercalate [' ']
    (if overlapSize / 10 = 0 then splitOnRuns isSpaceChar currentChunk
     else (splitOnRuns isSpaceChar currentChunk).drop
       ((splitOnRuns isSpaceChar currentChunk).length - overlapSize / 10))

/-- One step of the sentence-accumulation loop of `chunkDocument`
(server.js:1000-1015).  The accumulator is the pair of the flushed chunks
and the running chunk; `currentSize` of the source is always
`currentChunk.length` and is not tracked separately.  The trimmed sentence
with a period appended is `sentenceWithPeriod` (line 1001). -/
def chunkStep (maxSize overlapSize : Nat) (acc : List Str × Str) (sentence : Str) : List Str × Str :=
  if acc.2.length + (jsTrim sentence ++ ['.']).length > maxSize ∧ acc.2.length > 0 then
    (acc.1 ++ [jsTrim acc.2],
     chunkOverlap overlapSize acc.2 ++ ' ' :: (jsTrim sentence ++ ['.']))
  else
    (acc.1, acc.2 ++ ' ' :: (jsTrim sentence ++ ['.']))

/-- The sentence loop of `chunkDocument` applied to the non-empty trimmed
sentence candidates (server.js:995-1015). -/
def chunkFold (content : Str) (maxSize overlapSize : Nat) : List Str × Str :=
  (((splitOnRuns isTermChar content).filter (fun s => (jsTrim s).length > 0)).foldl
    (chunkStep maxSize overlapSize) ([], []))

/-- The chunk list before the final length filter: the flushed chunks plus
the trimmed remainder when non-empty (server.js:1017-1019). -/
def chunkAll (content : Str) (maxSize overlapSize : Nat) : List Str :=
  if (jsTrim (chunkFold content maxSize overlapSize).2).length > 0 then
    (chunkFold content maxSize overlapSize).1
      ++ [jsTrim (chunkFold content maxSize overlapSize).2]
  else (chunkFold content maxSize overlapSize).1

/-- `chunkDocument(content, docName, chunkSize, overlap)` (server.js:990).
The unused `docName` parameter is dropped; `maxSize` and `overlapSize` are
the resolved numeric values (defaults 1000 and 200).  The final filter at
line 1021 keeps chunks longer than 50 characters. -/
def chunkDocument (content : Str) (maxSize : Nat := 1000) (overlapSize : Nat := 200) : List Str :=
  (chunkAll content maxSize overlapSize).filter (fun c => c.length > 50)

/-! ## Keyword extractor (server.js:1029-1051) -/

/-- The fixed stop-word list of `extractKeywords` (server.js:1030-1035). -/
def commonWords : List Str :=
  [ "the".data, "and".data, "or".data, "but".data, "in".data, "on".data,
    "at".data, "to".data, "for".data, "of".data, "with".data, "by".data,
    "a".data, "an".data, "is".data, "are".data, "was".data, "were".data,
    "be".data, "been".data, "being".data, "have".data, "has".data,
    "had".data, "do".data, "does".data, "did".data, "will".data,
    "would".data, "should".data, "could".data, "may".data, "might".data,
    "must".data, "shall".data, "this".data, "that".data, "these".data,
    "those".data ]

/-- The filtered token stream of `extractKeywords` (server.js:1037-1040):
lowercase, replace non-`\w`, non-`\s` characters by a space, split on
whitespace, keep tokens longer than 3 characters that are not stop
words. -/
def tokens (text : Str) : List Str :=
  let replaced := (lower text).map (fun c => if isWordChar c || isSpaceChar c then c else ' ')
  (splitOnRuns isSpaceChar replaced).filter
    (fun w => decide (w.length > 3) && !(commonWords.contains w))

/-- A frequency-table entry: token and count. -/
abbrev Entry := Str × Nat

/-- `wordFreq[word] = (wordFreq[word] || 0) + 1` on an association list in
key-insertion order. -/
def bump (w : Str) : List Entry → List Entry
  | [] => [(w, 1)]
  | (k, n) :: rest => if k = w then (k, n + 1) :: rest else (k, n) :: bump w rest

/-- The frequency object of `extractKeywords` (server.js:1042-1045), as an
association list whose keys appear in insertion order. -/
def buildFreq (ws : List Str) : List Entry :=
  ws.foldl (fun acc w => bump w acc) []

/-- The distinct tokens of `ws` in order of first occurrence (the key
insertion order of the frequency object). -/
def dedupFO (ws : List Str) : List Str :=
  ws.foldl (fun acc w => if w ∈ acc then acc else acc ++ [w]) []

/-- `Object.entries(wordFreq)`: array-index-like keys first in ascending
numeric order, then the remaining keys in insertion order. -/
def entriesOrdered (es : List Entry) : List Entry :=
  sortAsc (fun e => (digitsToNat e.1 : Int)) (es.filter (fun e => isArrayIndexKey e.1))
    ++ es.filter (fun e => !(isArrayIndexKey e.1))

/-- `extractKeywords(text)` (server.js:1029-1051): frequency-sorted
(descending; the sort is stable, so ties keep the `Object.entries` order),
truncated to 50, keys only.  Descending by count is ascending by negated
count. -/
def extractKeywords (text : Str) : List Str :=
  ((sortAsc (fun e => -(e.2 : Int)) (entriesOrdered (buildFreq (tokens text)))).take 50).map
    (fun e => e.1)

/-- The count of the entry found for key `k`, 0 when absent (the read
`wordFreq[word] || 0`). -/
def lookupCount (k : Str) : List Entry → Nat
  | [] => 0
  | e :: es => if e.1 = k then e.2 else lookupCount k es

/-- Number of occurrences of a token in the filtered token stream. -/
def tokCount (text : Str) (w : Str) : Nat := (tokens text).count w

/-- The strict order "`a` is sorted before `b`" for a stable ascending sort
by `rank` applied to a list whose original order is `R`. -/
def rankedBefore {α : Type} (rank : α → Int) (R : α → α → Prop) (a b : α) : Prop :=
  rank a < rank b ∨ (rank a = rank b ∧ R a b)

/-- The `Object.entries` enumeration order on keys, for an object whose
string keys were inserted in order of first occurrence in the token list
`ts`: array-index-like keys come first, ascending by numeric value, then
the remaining keys in first-occurrence order.  (Two distinct canonical
numerals never have equal values, so the numeric tie arm is vacuous; it is
kept to match the stable-sort normal form.) -/
def enumBefore (ts : List Str) (a b : Str) : Prop :=
  (isArrayIndexKey a = true ∧ isArrayIndexKey b = true ∧
    (digitsToNat a < digitsToNat b ∨
      (digitsToNat a = digitsToNat b ∧ ts.indexOf a < ts.indexOf b))) ∨
  (isArrayIndexKey a = true ∧ isArrayIndexKey b = false) ∨
  (isArrayIndexKey a = false ∧ isArrayIndexKey b = false ∧ ts.indexOf a < ts.indexOf b)

/-- The output order of `extractKeywords`: strictly more frequent first,
frequency ties in `Object.entries` enumeration order. -/
def keywordOrdered (text : Str) (a b : Str) : Prop :=
  tokCount text b < tokCount text a ∨
  (tokCount text a = tokCount text b ∧ enumBefore (tokens text) a b)

/-! ## Data model -/

/-- An issue object (server.js:818-823 and the other push sites). -/
structure Issue where
  type : Str
  severity : Str
  title : Str
  description : Str
deriving DecidableEq

/-- A suggestion object (server.js:825-830 and the other push sites). -/
structure Suggestion where
  type : Str
  priority : Str
  title : Str
  description : Str
deriving DecidableEq

/-- An analysis report as assembled by the three analyzers.  Every field is
optional because the AI tier returns the parsed JSON verbatim, so any field
may be `undefined` there (`none`).  The word/character/sentence/paragraph
counters of the `analysis` stats record are straightforward projections of
the input text that no property below refers to, and are omitted; the two
tier flags are kept. -/
structure Report where
  complianceScore : Option Int := none
  issues : Option (List Issue) := none
  suggestions : Option (List Suggestion) := none
  riskLevel : Option Str := none
  policiesAnalyzed : Option Nat := none
  aiAnalyzed : Option Bool := none
  ragUsed : Option Bool := none
deriving DecidableEq

/-- A policy as the analyzers read it: only `name` and `keywords` are ever
consumed by the core (`content` and the storage fields belong to the
ingestion layer). -/
structure Policy where
  name : Str
  keywords : List Str
deriving DecidableEq

/-- A retrieved snippet (server.js:607-611).  ChromaDB distances are
floating-point; they are modelled as integers because only their order is
ever used (the ascending sort at server.js:617) and no claim exercises
their arithmetic. -/
structure Snippet where
  document : Str
  policy_name : Str
  distance : Int
deriving DecidableEq

/-- The JavaScript value produced by `JSON.parse` on a generative response,
projected to the four schema fields.  `none` models a field that is absent
or not of the expected shape (spreading such a field throws; reading it
yields `undefined`).  A `JSON.parse` result that is not an object at all
(a number, `null`, …) is the all-`none` value: every downstream
interaction with it is observably the same. -/
structure JsValue where
  complianceScore : Option Int := none
  riskLevel : Option Str := none
  issues : Option (List Issue) := none
  suggestions : Option (List Suggestion) := none
deriving DecidableEq

/-- Observable outcome of one generative-capability call
(`anthropic.messages.create` followed by `JSON.parse` of the response
text): the transport call throws, or the returned text is not valid JSON
(`JSON.parse` throws), or parsing succeeds with some value.  The response
text itself is opaque, so the oracle yields the parse outcome directly. -/
inductive GenOutcome where
  | svcError : GenOutcome
  | badJson : GenOutcome
  | parsed : JsValue → GenOutcome
deriving DecidableEq

/-- The JavaScript exceptions that cross function boundaries in the
analysis pipeline. -/
inductive JsErr where
  | typeError : JsErr
  | generativeUnavailable : JsErr
  | malformedResponse : JsErr
deriving DecidableEq

deriving instance DecidableEq for Except

/-- The retrieval capability: `policyCollection.query` for one chunk text
and a result count, which either returns the zipped
document/metadata/distance rows (server.js:599-613) or throws. -/
abbrev RetrievalClient := Str → Nat → Except Unit (List Snippet)

/-- The generative capability, as a function from the prompt to the
observable outcome. -/
abbrev GenClient := Str → GenOutcome

/-! ## Rule-based analyzer (server.js:785-903) -/

/-- Decimal digits of a natural number (for the template literals). -/
def natStr (n : Nat) : Str := Nat.toDigits 10 n

/-- One language rule of the fixed table (server.js:791-813): a match
counter standing for the regex, the issue and suggestion texts, the
severity and the per-match penalty. -/
structure LangRule where
  count : Str → Nat
  issue : Str
  suggestion : Str
  severity : Str
  penalty : Nat

/-- The language-rule table (server.js:791-813). -/
def languageRules : List LangRule :=
  [ { count := fun t => countWord ("shall").data t,
      issue := "Use of 'shall' - ambiguous legal term".data,
      suggestion := "Replace 'shall' with 'will', 'must', or 'agrees to' for clarity".data,
      severity := "low".data, penalty := 2 },
    { count := fun t => countWord ("hereby").data t,
      issue := "Unnecessary use of 'hereby'".data,
      suggestion := "Remove 'hereby' for cleaner, modern language".data,
      severity := "low".data, penalty := 1 },
    { count := countPeriodRuns,
      issue := "Multiple consecutive periods".data,
      suggestion := "Use single periods for proper punctuation".data,
      severity := "medium".data, penalty := 2 } ]

/-- The rules whose pattern matches at least once.  The source loop
(server.js:815-834) pushes one issue, one suggestion and one score
decrement per such rule, in table order; the loop is decomposed here into
a filter/map per product, which preserves order and totals. -/
def firedRules (text : Str) : List LangRule :=
  languageRules.filter (fun r => decide (0 < r.count text))

/-- The issues of the language loop (server.js:818-823). -/
def langIssues (text : Str) : List Issue :=
  (firedRules text).map (fun r =>
    { type := "Language Issue".data, severity := r.severity, title := r.issue,
      description := "Found ".data ++ natStr (r.count text) ++ " instance(s)".data })

/-- The suggestions of the language loop (server.js:825-830). -/
def langSugs (text : Str) : List Suggestion :=
  (firedRules text).map (fun r =>
    { type := "Language Improvement".data,
      priority := if r.severity = ("high").data then ("high").data else ("medium").data,
      title := r.suggestion,
      description := "Apply to ".data ++ natStr (r.count text) ++ " instance(s)".data })

/-- The total language-rule score decrement: `min(count × penalty, 20)` per
fired rule (server.js:832). -/
def langPenalty (text : Str) : Int :=
  ((firedRules text).map (fun r => min ((r.count text : Int) * r.penalty) 20)).sum

/-- A required section, defined by its detection patterns (all
case-insensitive substring regexes). -/
structure SectionRule where
  name : Str
  patterns : List Str

/-- The essential-section table (server.js:837-841; every entry has
`required: true`). -/
def essentialSections : List SectionRule :=
  [ { name := "Parties".data, patterns := [ "parties".data, "party".data ] },
    { name := "Term/Duration".data,
      patterns := [ "term".data, "duration".data, "expir".data ] },
    { name := "Termination".data,
      patterns := [ "terminat".data, "end".data, "cancel".data ] } ]

/-- The required sections none of whose patterns match (server.js:843-845). -/
def missingSections (text : Str) : List SectionRule :=
  essentialSections.filter (fun s => !(s.patterns.any (fun p => testCI p text)))

/-- The issues of the structure loop (server.js:846-851); it pushes no
suggestions. -/
def structIssues (text : Str) : List Issue :=
  (missingSections text).map (fun s =>
    { type := "Structure Issue".data, severity := ("high").data,
      title := "Missing ".data ++ s.name ++ " section".data,
      description := "Contract should include ".data ++ lower s.name ++ " information".data })

/-- The flat 10-point decrement per missing section (server.js:852). -/
def structPenalty (text : Str) : Int := 10 * (missingSections text).length

/-- The policy keywords (first 10) with no covering document keyword; a
document keyword covers a policy keyword when either contains the other
(server.js:861-867). -/
def missingKeywords (text : Str) (p : Policy) : List Str :=
  (p.keywords.take 10).filter (fun kw =>
    !((extractKeywords text).any (fun dk => containsSeq kw dk || containsSeq dk kw)))

/-- The policies flagged by the coverage loop: those with at least one
missing keyword (server.js:869). -/
def flaggedPolicies (text : Str) (pols : List Policy) : List Policy :=
  pols.filter (fun p => !(missingKeywords text p).isEmpty)

/-- The issues of the policy-coverage loop (server.js:870-875). -/
def polIssues (text : Str) (pols : List Policy) : List Issue :=
  (flaggedPolicies text pols).map (fun p =>
    { type := "Policy Compliance".data, severity := ("high").data,
      title := "Missing key terms from ".data ++ p.name,
      description := "Document may not comply with policy requirements".data })

/-- The suggestions of the policy-coverage loop (server.js:877-882). -/
def polSugs (text : Str) (pols : List Policy) : List Suggestion :=
  (flaggedPolicies text pols).map (fun p =>
    { type := "Policy Alignment".data, priority := ("high").data,
      title := "Add required terms from ".data ++ p.name,
      description := "Consider including: ".data
        ++ List.intercalate (", ").data ((missingKeywords text p).take 3) })

/-- The total policy-coverage decrement: `min(missing × 3, 15)` per flagged
policy (server.js:884). -/
def polPenalty (text : Str) (pols : List Policy) : Int :=
  ((flaggedPolicies text pols).map (fun p =>
    min (((missingKeywords text p).length : Int) * 3) 15)).sum

/-- The running `complianceScore` after all three rule families
(server.js:788, decremented at 832, 852, 884) — before clamping. -/
def rawScore (text : Str) (pols : List Policy) : Int :=
  100 - langPenalty text - structPenalty text - polPenalty text pols

/-- The risk-level threshold function (server.js:892). -/
def riskOf (s : Int) : Str :=
  if 80 ≤ s then ("Low").data else if 60 ≤ s then ("Medium").data else ("High").data

/-- `performBasicAnalysis(documentText, policies, options)`
(server.js:785-903).  `options` is never read and is dropped.  The score is
an integer throughout (every decrement is an integer), so `Math.round` is
the identity; `Math.max(·, 0)` is the clamp.  Note the source derives
`riskLevel` from the *unclamped* running score (line 892), while the stored
score is clamped (line 889). -/
def performBasicAnalysis (documentText : Str) (policies : List Policy) : Report :=
  { complianceScore := some (max (rawScore documentText policies) 0),
    issues := some (langIssues documentText ++ structIssues documentText
      ++ polIssues documentText policies),
    suggestions := some ((langSugs documentText ++ polSugs documentText policies).take 20),
    riskLevel := some (riskOf (rawScore documentText policies)),
    policiesAnalyzed := some policies.length,
    aiAnalyzed := some false,
    ragUsed := some false }

/-! ## Retrieval-augmented and generative analyzers (server.js:555-745) -/

/-- The policy context block of the RAG prompt (server.js:628-630). -/
def ragContext (snips : List Snippet) : Str :=
  List.intercalate ("\n\n").data
    (snips.map (fun p => "Policy: ".data ++ p.policy_name ++ "\nSection: ".data ++ p.document))

/-- The constant output-schema instruction of both prompts
(server.js:640-660, 704-724).  The verbatim JSON template is abbreviated
to a brace-free sentence: no property proved below depends on the prompt
text, only on which dynamic parts it embeds. -/
def schemaInstr : Str :=
  "\n\nProvide analysis in JSON format with complianceScore, riskLevel, issues and suggestions.".data

/-- The RAG-tier prompt (server.js:632-660). -/
def ragPrompt (documentText : Str) (snips : List Snippet) : Str :=
  ("You are a legal compliance expert. Analyze this contract for policy compliance and provide improvement suggestions.\n\nPOLICY CONTEXT:\n").data
    ++ ragContext snips
    ++ "\n\nDOCUMENT TO ANALYZE:\n".data ++ documentText ++ schemaInstr

/-- The AI-tier prompt (server.js:694-724), with the per-policy name and
full keyword list summary. -/
def aiPrompt (documentText : Str) (pols : List Policy) : Str :=
  ("You are a legal compliance expert. Analyze this contract and provide improvement suggestions.\n\nAVAILABLE POLICIES:\n").data
    ++ List.intercalate ("\n").data
      (pols.map (fun p => "Policy: ".data ++ p.name ++ "\nKeywords: ".data
        ++ List.intercalate (", ").data p.keywords))
    ++ "\n\nDOCUMENT TO ANALYZE:\n".data ++ documentText ++ schemaInstr

/-- The synthetic issue of the degraded RAG result (server.js:676-681). -/
def degradedIssue : Issue :=
  { type := "Analysis Error".data, severity := ("medium").data,
    title := "AI analysis unavailable".data,
    description := "Using basic analysis only".data }

/-- The synthetic suggestion of the degraded RAG result (server.js:682-687). -/
def degradedSug : Suggestion :=
  { type := ("General").data, priority := ("medium").data,
    title := "Manual review recommended".data,
    description := "Please have document reviewed by legal counsel".data }

/-- The fixed degraded result substituted by the RAG tier's AI step on any
failure (server.js:673-688). -/
def degradedResult : JsValue :=
  { complianceScore := some 60,
    riskLevel := some ("Medium").data,
    issues := some [degradedIssue],
    suggestions := some [degradedSug] }

/-- `analyzeWithClaude(documentText, relevantPolicies, options)`
(server.js:626-690; `options` is never read).  Any transport failure or
`JSON.parse` failure lands in the catch block, which returns the fixed
degraded object instead of raising; a response that parses as JSON is
returned as-is, with no schema validation. -/
def analyzeWithClaude (gen : GenClient) (documentText : Str) (relevantPolicies : List Snippet) :
    JsValue :=
  match gen (ragPrompt documentText relevantPolicies) with
  | GenOutcome.parsed v => v
  | _ => degradedResult

/-- The query loop of `retrieveRelevantPolicies` (server.js:598-614): one
retrieval query per chunk, results concatenated in chunk order; the first
failure aborts the loop. -/
def queryLoop (query : RetrievalClient) (k : Nat) : List Str → Except Unit (List Snippet)
  | [] => Except.ok []
  | c :: cs => do
      let r ← query c k
      let rest ← queryLoop query k cs
      pure (r ++ rest)

/-- `retrieveRelevantPolicies(documentText, topK)` (server.js:593-624):
chunk the document, query the first 3 chunks for `ceil(topK/3)` results
each, sort everything ascending by distance and keep the best `topK`.  The
catch at lines 620-623 turns *any* query failure into the empty result
list, discarding partial results — this function never fails.
`(topK + 2) / 3` is `Math.ceil(topK / 3)` on naturals. -/
def retrieveRelevantPolicies (query : RetrievalClient) (documentText : Str)
    (topK : Nat := 10) : List Snippet :=
  match queryLoop query ((topK + 2) / 3) ((chunkDocument documentText).take 3) with
  | Except.ok allResults => (sortAsc (fun s => s.distance) allResults).take topK
  | Except.error _ => []

/-- `performRAGAnalysis(documentText, options)` (server.js:555-591;
`options` is never read by anything downstream).  The spreads
`...claudeAnalysis.issues` and `...claudeAnalysis.suggestions` at lines
568-575 throw a TypeError when the parsed response lacks those array
fields (for instance valid JSON that does not match the schema); the outer
catch (line 587-590) logs and rethrows. -/
def performRAGAnalysis (query : RetrievalClient) (gen : GenClient) (documentText : Str) :
    Except JsErr Report :=
  match (analyzeWithClaude gen documentText
          (retrieveRelevantPolicies query documentText)).issues,
        (analyzeWithClaude gen documentText
          (retrieveRelevantPolicies query documentText)).suggestions with
  | some ci, some cs =>
    Except.ok
      { complianceScore := (analyzeWithClaude gen documentText
          (retrieveRelevantPolicies query documentText)).complianceScore,
        issues := some (ci ++ (performBasicAnalysis documentText []).issues.getD []),
        suggestions := some ((cs
          ++ (performBasicAnalysis documentText []).suggestions.getD []).take 25),
        riskLevel := (analyzeWithClaude gen documentText
          (retrieveRelevantPolicies query documentText)).riskLevel,
        policiesAnalyzed := some (retrieveRelevantPolicies query documentText).length,
        aiAnalyzed := some true,
        ragUsed := some true }
  | _, _ => Except.error JsErr.typeError

/-- `performAIAnalysis(documentText, policies, options)`
(server.js:692-745; `options` is never read).  The catch block (741-744)
rethrows every failure: a transport error propagates as
`GenerativeUnavailable`, a `JSON.parse` failure as `MalformedResponse`.  A
successful parse is returned verbatim with only `analysis` flags attached
— no spread, so a schema-mismatched object passes through unchanged. -/
def performAIAnalysis (gen : GenClient) (documentText : Str) (policies : List Policy) :
    Except JsErr Report :=
  match gen (aiPrompt documentText policies) with
  | GenOutcome.svcError => Except.error JsErr.generativeUnavailable
  | GenOutcome.badJson => Except.error JsErr.malformedResponse
  | GenOutcome.parsed v =>
    Except.ok
      { complianceScore := v.complianceScore,
        issues := v.issues,
        suggestions := v.suggestions,
        riskLevel := v.riskLevel,
        policiesAnalyzed := none,
        aiAnalyzed := some true,
        ragUsed := some false }

/-- Capability availability: `policyCollection` and `anthropic` are the two
possibly-`null` globals the controller tests (server.js:542-544). -/
structure Caps where
  policyCollection : Option RetrievalClient
  anthropic : Option GenClient

/-- `performEnhancedAnalysis(documentText, policies, options)`
(server.js:539-553), the degradation controller: Tier RAG when both
capabilities are present, else Tier AI when the generative one is, else
Tier BASIC; any failure of the attempted tier is caught and falls through
to Tier BASIC.  The function is total: it always returns a report. -/
def performEnhancedAnalysis (caps : Caps) (documentText : Str) (policies : List Policy) :
    Report :=
  match caps.policyCollection, caps.anthropic with
  | some query, some gen =>
    match performRAGAnalysis query gen documentText with
    | Except.ok r => r
    | Except.error _ => performBasicAnalysis documentText policies
  | none, some gen =>
    match performAIAnalysis gen documentText policies with
    | Except.ok r => r
    | Except.error _ => performBasicAnalysis documentText policies
  | _, none => performBasicAnalysis documentText policies

/-! ## Result store (server.js:401-406) -/

/-- `analysisResults.push(result)` followed by
`analysisResults = analysisResults.slice(-100)` when more than 100 are
held: append, then keep the last 100. -/
def appendResult {α : Type} (store : List α) (r : α) : List α :=
  if (store ++ [r]).length > 100 then
    (store ++ [r]).drop ((store ++ [r]).length - 100)
  else store ++ [r]

/-! ## Concrete inputs for the scenarios -/

/-- The Scenario-A document: "shall" exactly three times, no "hereby", no
double periods, the parties and term patterns present, no termination
pattern (no substring "terminat", "end" or "cancel"). -/
def docA : Str :=
  ("The parties shall meet. The term shall last one year. Each party shall act in good faith.").data

/-- A single-sentence document long enough (86 characters) to survive the
chunker's 50-character filter, matching none of the rule patterns except
the missing-section ones. -/
def docB : Str :=
  ("This controlling document presents numerous obligations for both signatories involved.").data

/-- A policy whose only keyword is covered by no keyword of the empty
document. -/
def polZ : Policy := { name := "policy-z".data, keywords := [ "zzzz".data ] }

/-- A retrieval client whose every query throws (the backing service is
unreachable). -/
def failQuery : RetrievalClient := fun _ _ => Except.error ()

/-- A retrieval client that answers every query with no snippets. -/
def emptyQuery : RetrievalClient := fun _ _ => Except.ok []

/-- A generative client returning a fixed already-parsed value. -/
def genParsed (v : JsValue) : GenClient := fun _ => GenOutcome.parsed v

/-- A generative client whose response text never parses as JSON. -/
def genBadJson : GenClient := fun _ => GenOutcome.badJson

/-- A well-formed generative result matching the output schema. -/
def goodVal : JsValue :=
  { complianceScore := some 90, riskLevel := some ("Low").data,
    issues := some [], suggestions := some [] }

/-- A generative response that is valid JSON but fails the output schema:
only `complianceScore` is present, `issues` and `suggestions` are
`undefined`. -/
def missVal : JsValue := { complianceScore := some 42 }

/-- A schema-shaped generative result whose score is out of range and whose
risk level disagrees with the threshold function. -/
def bigVal : JsValue :=
  { complianceScore := some 150, riskLevel := some ("High").data,
    issues := some [], suggestions := some [] }

/-! ## Helper lemmas -/

theorem queryLoop_fail (k : Nat) (cs : List Str) :
    queryLoop failQuery k cs = if cs.isEmpty then Except.ok [] else Except.error () := by
  cases cs with
  | nil => rfl
  | cons c cs => rfl

theorem queryLoop_empty (k : Nat) (cs : List Str) :
    queryLoop emptyQuery k cs = Except.ok [] := by
  induction cs with
  | nil => rfl
  | cons c cs ih =>
    unfold queryLoop
    rw [ih]
    rfl

theorem retrieve_failQuery (text : Str) (topK : Nat) :
    retrieveRelevantPolicies failQuery text topK = [] := by
  unfold retrieveRelevantPolicies
  rw [queryLoop_fail]
  cases hb : ((chunkDocument text).take 3).isEmpty with
  | true => simp [hb, sortAsc]
  | false => simp [hb]

theorem retrieve_emptyQuery (text : Str) (topK : Nat) :
    retrieveRelevantPolicies emptyQuery text topK = [] := by
  unfold retrieveRelevantPolicies
  rw [queryLoop_empty]
  simp [sortAsc]

theorem langPenalty_nonneg (text : Str) : 0 ≤ langPenalty text := by
  apply List.sum_nonneg
  intro x hx
  simp only [langPenalty, List.mem_map] at hx
  obtain ⟨r, _, rfl⟩ := hx
  exact le_min (mul_nonneg (Int.natCast_nonneg _) (Int.natCast_nonneg _)) (by norm_num)

theorem structPenalty_nonneg (text : Str) : 0 ≤ structPenalty text := by
  unfold structPenalty
  positivity

theorem polPenalty_nonneg (text : Str) (pols : List Policy) : 0 ≤ polPenalty text pols := by
  apply List.sum_nonneg
  intro x hx
  simp only [polPenalty, List.mem_map] at hx
  obtain ⟨p, _, rfl⟩ := hx
  exact le_min (mul_nonneg (Int.natCast_nonneg _) (by norm_num)) (by norm_num)

theorem rawScore_le (text : Str) (pols : List Policy) : rawScore text pols ≤ 100 := by
  have h1 := langPenalty_nonneg text
  have h2 := structPenalty_nonneg text
  have h3 := polPenalty_nonneg text pols
  unfold rawScore
  omega

theorem riskOf_max (r : Int) : riskOf (max r 0) = riskOf r := by
  unfold riskOf
  rcases le_total r 0 with h | h
  · rw [max_eq_right h]
    split_ifs <;> first | rfl | omega
  · rw [max_eq_left h]

theorem dropWhile_dropWhile (p : Char → Bool) (l : List Char) :
    (l.dropWhile p).dropWhile p = l.dropWhile p := by
  induction l with
  | nil => rfl
  | cons a l ih =>
    by_cases h : p a
    · simp [List.dropWhile_cons, h, ih]
    · simp [List.dropWhile_cons, h]

theorem head_dropWhile_false (p : Char → Bool) (l : List Char) (a : Char) (l' : List Char)
    (h : l.dropWhile p = a :: l') : p a = false := by
  induction l with
  | nil => exact absurd h (by simp)
  | cons b l ih =>
    by_cases hb : p b
    · rw [List.dropWhile_cons, if_pos hb] at h
      exact ih h
    · rw [List.dropWhile_cons, if_neg hb] at h
      cases h
      exact Bool.eq_false_iff.mpr hb

theorem dropWhile_eq_self (p : Char → Bool) (l : List Char)
    (h : ∀ a l', l = a :: l' → p a = false) : l.dropWhile p = l := by
  cases l with
  | nil => rfl
  | cons a l => rw [List.dropWhile_cons, if_neg (by simp [h a l rfl])]

theorem dropWhile_suffix (p : Char → Bool) (l : List Char) : l.dropWhile p <:+ l := by
  induction l with
  | nil => exact List.nil_suffix
  | cons a l ih =>
    by_cases h : p a
    · rw [List.dropWhile_cons, if_pos h]
      exact ih.trans (List.suffix_cons a l)
    · rw [List.dropWhile_cons, if_neg h]

theorem getLast?_of_suffix {s l : List Char} (h : s <:+ l) (hs : s ≠ []) :
    l.getLast? = s.getLast? := by
  obtain ⟨t, rfl⟩ := h
  rw [List.getLast?_append]
  cases hlast : s.getLast? with
  | none => exact absurd (List.getLast?_eq_none_iff.mp hlast) hs
  | some a => rfl

theorem jsTrim_head_false (s : Str) (a : Char) (l' : List Char)
    (h : jsTrim s = a :: l') : isSpaceChar a = false := by
  have hh : (jsTrim s).head? = some a := by rw [h]; rfl
  rw [jsTrim, List.head?_reverse] at hh
  have hne : (s.dropWhile isSpaceChar).reverse.dropWhile isSpaceChar ≠ [] := by
    intro hemp
    rw [hemp] at hh
    exact Option.noConfusion hh
  have hsuf := getLast?_of_suffix
    (dropWhile_suffix isSpaceChar (s.dropWhile isSpaceChar).reverse) hne
  rw [hh, List.getLast?_reverse] at hsuf
  cases hd : s.dropWhile isSpaceChar with
  | nil => rw [hd] at hsuf; exact Option.noConfusion hsuf
  | cons b l2 =>
    rw [hd] at hsuf
    simp only [List.head?_cons, Option.some.injEq] at hsuf
    exact hsuf ▸ head_dropWhile_false isSpaceChar s b l2 hd

theorem jsTrim_idem (s : Str) : jsTrim (jsTrim s) = jsTrim s := by
  have h1 : (jsTrim s).dropWhile isSpaceChar = jsTrim s :=
    dropWhile_eq_self _ _ (fun a l' hl => jsTrim_head_false s a l' hl)
  show (((jsTrim s).dropWhile isSpaceChar).reverse.dropWhile isSpaceChar).reverse = jsTrim s
  rw [h1]
  have h2 : (jsTrim s).reverse
      = ((s.dropWhile isSpaceChar).reverse.dropWhile isSpaceChar) := by
    rw [jsTrim, List.reverse_reverse]
  rw [h2, dropWhile_dropWhile]
  rfl

theorem chunkStep_trimmed (m o : Nat) (acc : List Str × Str) (sentence : Str)
    (h : ∀ c ∈ acc.1, ∃ s, c = jsTrim s) :
    ∀ c ∈ (chunkStep m o acc sentence).1, ∃ s, c = jsTrim s := by
  unfold chunkStep
  split_ifs with hc
  · intro c hcm
    rcases List.mem_append.mp hcm with h1 | h1
    · exact h c h1
    · rw [List.mem_singleton] at h1
      exact ⟨acc.2, h1⟩
  · exact h

theorem chunkFold_trimmed (content : Str) (m o : Nat) :
    ∀ c ∈ (chunkFold content m o).1, ∃ s, c = jsTrim s := by
  unfold chunkFold
  generalize ((splitOnRuns isTermChar content).filter (fun s => (jsTrim s).length > 0)) = l
  have base : ∀ c ∈ (([], []) : List Str × Str).1, ∃ s, c = jsTrim s := by simp
  generalize hacc : (([], []) : List Str × Str) = acc at base ⊢
  clear hacc
  induction l generalizing acc with
  | nil => exact base
  | cons st rest ih => exact ih _ (chunkStep_trimmed m o acc st base)

theorem chunkAll_trimmed (content : Str) (m o : Nat) :
    ∀ c ∈ chunkAll content m o, ∃ s, c = jsTrim s := by
  unfold chunkAll
  split_ifs with hc
  · intro c hcm
    rcases List.mem_append.mp hcm with h1 | h1
    · exact chunkFold_trimmed content m o c h1
    · rw [List.mem_singleton] at h1
      exact ⟨(chunkFold content m o).2, h1⟩
  · exact chunkFold_trimmed content m o

/-! ## The claims -/

/-- C1: if the RAG tier fails with any error, the degradation controller
catches it and falls back directly to the rule-based basic analysis,
bypassing the AI tier even though the generative capability is available;
the controller itself is a total function (it returns a `Report`, never an
exception). -/
theorem c1_rag_failure_falls_back_to_basic (query : RetrievalClient) (gen : GenClient)
    (text : Str) (pols : List Policy) (e : JsErr)
    (h : performRAGAnalysis query gen text = Except.error e) :
    performEnhancedAnalysis ⟨some query, some gen⟩ text pols
      = performBasicAnalysis text pols := by
  simp only [performEnhancedAnalysis, h]

/-- Witness for C1 at a concrete failing RAG run: a generative response
that is valid JSON without the schema arrays makes the RAG tier throw, and
the controller returns the basic result. -/
theorem c1_witness :
    performEnhancedAnalysis ⟨some emptyQuery, some (genParsed missVal)⟩ [] []
      = performBasicAnalysis [] [] :=
  c1_rag_failure_falls_back_to_basic emptyQuery (genParsed missVal) [] []
    JsErr.typeError (by decide)

/-- C2 is false on the code: on a document with a non-empty chunk list, a
retrieval client whose every query throws does *not* make the RAG tier
fail — `retrieveRelevantPolicies` swallows the failure into an empty
snippet list and the RAG analysis completes successfully. -/
theorem c2_counterexample :
    (chunkDocument docB).take 3 ≠ [] ∧
    retrieveRelevantPolicies failQuery docB = [] ∧
    (performRAGAnalysis failQuery (genParsed goodVal) docB).isOk = true := by
  refine ⟨by decide, by decide, by decide⟩

/-- C2 as amended: the retrieval-augmented analyzer swallows Retrieval
Client failures as well — a failing retrieval client yields the empty
retrieved-context list (partial results are discarded) and the RAG
analysis behaves exactly as with a client that returns no snippets;
retrieval failure never propagates to the degradation controller. -/
theorem c2_retrieval_failure_swallowed (text : Str) (topK : Nat) (gen : GenClient) :
    retrieveRelevantPolicies failQuery text topK = [] ∧
    performRAGAnalysis failQuery gen text = performRAGAnalysis emptyQuery gen text := by
  refine ⟨retrieve_failQuery text topK, ?_⟩
  unfold performRAGAnalysis
  rw [retrieve_failQuery, retrieve_emptyQuery]

set_option maxRecDepth 10000 in
/-- C3 is false on the code: a generative response that is valid JSON but
fails the output schema (here, an object with only `complianceScore`) is
*not* replaced by the fixed degraded result — it is returned unvalidated,
the merge then throws, and the controller falls back to the basic result,
whose score (70) is not the placeholder score (60). -/
theorem c3_counterexample :
    analyzeWithClaude (genParsed missVal) docB [] = missVal ∧
    missVal ≠ degradedResult ∧
    performRAGAnalysis emptyQuery (genParsed missVal) docB = Except.error JsErr.typeError ∧
    performEnhancedAnalysis ⟨some emptyQuery, some (genParsed missVal)⟩ docB []
      = performBasicAnalysis docB [] ∧
    (performBasicAnalysis docB []).complianceScore = some 70 ∧
    (performBasicAnalysis docB []).complianceScore ≠ some 60 := by
  refine ⟨by decide, by decide, by decide, by decide, by decide, by decide⟩

/-- C3 as amended: on a generative transport failure or a response that is
not valid JSON, the RAG tier substitutes the fixed degraded result (score
60, risk Medium, the synthetic issue/suggestion pair) and the analysis
succeeds with the placeholder merged before the rule-based issues and
suggestions; only a response that is valid JSON yet lacks the schema
arrays escapes the substitution. -/
theorem c3_degraded_on_parse_or_service_failure (query : RetrievalClient) (gen : GenClient)
    (text : Str)
    (h : gen (ragPrompt text (retrieveRelevantPolicies query text)) = GenOutcome.svcError ∨
         gen (ragPrompt text (retrieveRelevantPolicies query text)) = GenOutcome.badJson) :
    performRAGAnalysis query gen text =
      Except.ok
        { complianceScore := some 60,
          issues := some (degradedIssue :: (performBasicAnalysis text []).issues.getD []),
          suggestions := some ((degradedSug
            :: (performBasicAnalysis text []).suggestions.getD []).take 25),
          riskLevel := some ("Medium").data,
          policiesAnalyzed := some (retrieveRelevantPolicies query text).length,
          aiAnalyzed := some true,
          ragUsed := some true } := by
  have hc : analyzeWithClaude gen text (retrieveRelevantPolicies query text)
      = degradedResult := by
    unfold analyzeWithClaude
    rcases h with h | h <;> rw [h]
  unfold performRAGAnalysis
  rw [hc]
  rfl

/-- Witness for C3's amended statement: a never-JSON generative client on
the Scenario-A document. -/
theorem c3_witness :
    performRAGAnalysis emptyQuery genBadJson docA =
      Except.ok
        { complianceScore := some 60,
          issues := some (degradedIssue :: (performBasicAnalysis docA []).issues.getD []),
          suggestions := some ((degradedSug
            :: (performBasicAnalysis docA []).suggestions.getD []).take 25),
          riskLevel := some ("Medium").data,
          policiesAnalyzed := some (retrieveRelevantPolicies emptyQuery docA).length,
          aiAnalyzed := some true,
          ragUsed := some true } :=
  c3_degraded_on_parse_or_service_failure emptyQuery genBadJson docA (Or.inr rfl)

/-- C4 is false on the code at the exposed boundary: with only the
generative capability available and a response that fails JSON parsing,
the tier-level analyzer does fail with `MalformedResponse`, but the
exposed analysis operation does not fail — the controller catches the
error and returns the rule-based result. -/
theorem c4_counterexample :
    performAIAnalysis genBadJson docB [] = Except.error JsErr.malformedResponse ∧
    performEnhancedAnalysis ⟨none, some genBadJson⟩ docB []
      = performBasicAnalysis docB [] := by
  exact ⟨rfl, rfl⟩

/-- C4 as amended: when the generative response fails JSON parsing in the
AI tier, `performAIAnalysis` fails with `MalformedResponse` (the AI tier
does not self-degrade), and the degradation controller then catches that
failure and returns the BASIC-tier result, so the exposed analysis
operation succeeds with the rule-based report instead of failing. -/
theorem c4_ai_tier_propagates_malformed (gen : GenClient) (text : Str) (pols : List Policy)
    (h : gen (aiPrompt text pols) = GenOutcome.badJson) :
    performAIAnalysis gen text pols = Except.error JsErr.malformedResponse ∧
    performEnhancedAnalysis ⟨none, some gen⟩ text pols = performBasicAnalysis text pols := by
  have h1 : performAIAnalysis gen text pols = Except.error JsErr.malformedResponse := by
    unfold performAIAnalysis
    rw [h]
  exact ⟨h1, by simp only [performEnhancedAnalysis, h1]⟩

/-- Witness for C4's amended statement at a concrete input. -/
theorem c4_witness :
    performAIAnalysis genBadJson docA [] = Except.error JsErr.malformedResponse ∧
    performEnhancedAnalysis ⟨none, some genBadJson⟩ docA [] = performBasicAnalysis docA [] :=
  c4_ai_tier_propagates_malformed genBadJson docA [] rfl

/-- C5 is false on the code: in the RAG tier the compliance score and risk
level are copied verbatim from the generative response — a response with
score 150 and risk High flows into the exposed report although 150 is not
in [0,100] and the threshold function maps 150 to Low. -/
theorem c5_counterexample :
    (performEnhancedAnalysis ⟨some emptyQuery, some (genParsed bigVal)⟩ docB
      []).complianceScore = some 150 ∧
    (performEnhancedAnalysis ⟨some emptyQuery, some (genParsed bigVal)⟩ docB
      []).riskLevel = some ("High").data ∧
    riskOf 150 = ("Low").data ∧
    ¬ ((150 : Int) ≤ 100) := by
  refine ⟨by decide, by decide, by decide, by decide⟩

/-- C5 as amended: every report produced by the rule-based BASIC tier
(directly or as fallback) carries an integer compliance score in [0,100]
whose risk level is the threshold function of the score; the RAG and AI
tiers copy score and risk level unvalidated from the generative
response. -/
theorem c5_basic_score_in_range (text : Str) (pols : List Policy) :
    ∃ s : Int, (performBasicAnalysis text pols).complianceScore = some s ∧
      0 ≤ s ∧ s ≤ 100 ∧ (performBasicAnalysis text pols).riskLevel = some (riskOf s) := by
  refine ⟨max (rawScore text pols) 0, rfl, le_max_right _ _,
    max_le (rawScore_le text pols) (by norm_num), ?_⟩
  rw [riskOf_max]
  rfl

/-- C6 (Scenario A): the document with "shall" exactly 3 times, no
"hereby", no double periods, parties and term patterns present and no
termination pattern, analyzed by the BASIC tier with zero policies, scores
100 − min(3×2,20) − 10 = 84 with risk level Low. -/
theorem c6_scenario_a :
    countWord ("shall").data docA = 3 ∧
    countWord ("hereby").data docA = 0 ∧
    countPeriodRuns docA = 0 ∧
    (missingSections docA).map (fun s => s.name) = [ ("Termination").data ] ∧
    (performBasicAnalysis docA []).complianceScore = some 84 ∧
    (performBasicAnalysis docA []).riskLevel = some ("Low").data := by
  refine ⟨by decide, by decide, by decide, by decide, by decide, by decide⟩

/-- C7: every chunk returned by the chunker has trimmed length strictly
greater than 50, for every input text and every size/overlap setting
(every produced chunk is already trimmed, and the final filter drops
anything of length ≤ 50). -/
theorem c7_chunk_trimmed_length (content : Str) (maxSize overlapSize : Nat) (c : Str)
    (h : c ∈ chunkDocument content maxSize overlapSize) :
    50 < (jsTrim c).length := by
  unfold chunkDocument at h
  rw [List.mem_filter] at h
  obtain ⟨hm, hlen⟩ := h
  obtain ⟨s, rfl⟩ := chunkAll_trimmed content maxSize overlapSize c hm
  rw [jsTrim_idem]
  simpa using hlen

/-- Witness for C7: the 86-character single-sentence document is its own
unique chunk. -/
theorem c7_witness : 50 < (jsTrim docB).length :=
  c7_chunk_trimmed_length docB 1000 200 docB (by decide)

set_option maxRecDepth 10000 in
/-- C8: the result store is a bounded FIFO — an append never leaves more
than 100 reports, appending onto 100 evicts exactly the oldest, and 150
sequential appends of reports 1..150 onto the empty store leave exactly
reports 51..150 in insertion order. -/
theorem c8_result_store_bounded_fifo :
    (∀ (store : List Nat) (r : Nat), store.length ≤ 100 →
      (appendResult store r).length ≤ 100) ∧
    (∀ (store : List Nat) (r : Nat), store.length = 100 →
      appendResult store r = store.drop 1 ++ [r]) ∧
    (List.range' 1 150).foldl appendResult [] = List.range' 51 100 := by
  refine ⟨?_, ?_, by decide⟩
  · intro store r h
    unfold appendResult
    split_ifs with hgt
    · rw [List.length_drop]
      omega
    · simp only [List.length_append, List.length_singleton] at hgt ⊢
      omega
  · intro store r h
    unfold appendResult
    have hlen : (store ++ [r]).length = 101 := by simp [h]
    rw [if_pos (by rw [hlen]; norm_num), hlen,
      show (101 - 100 : Nat) = 1 from rfl]
    exact List.drop_append_of_le_length (by omega)

/-- Witness for C8 at a concrete store of exactly 100 reports. -/
theorem c8_witness :
    (appendResult (List.range 100) 7).length ≤ 100 ∧
    appendResult (List.range 100) 7 = (List.range 100).drop 1 ++ [7] :=
  ⟨c8_result_store_bounded_fifo.1 (List.range 100) 7 (by decide),
   c8_result_store_bounded_fifo.2.1 (List.range 100) 7 (by decide)⟩

/-! ## Stable-sort and frequency-table lemmas (towards C9) -/

theorem mem_insertAsc {α : Type} (rank : α → Int) (e x : α) (l : List α) :
    x ∈ insertAsc rank e l ↔ x = e ∨ x ∈ l := by
  induction l with
  | nil => simp [insertAsc]
  | cons y ys ih =>
    unfold insertAsc
    split_ifs with h
    · simp [List.mem_cons]
    · simp only [List.mem_cons, ih]
      tauto

theorem mem_sortAsc {α : Type} (rank : α → Int) (x : α) (l : List α) :
    x ∈ sortAsc rank l ↔ x ∈ l := by
  induction l with
  | nil => simp [sortAsc]
  | cons e rest ih => simp [sortAsc, mem_insertAsc, ih]

theorem rankedBefore_rank_le {α : Type} {rank : α → Int} {R : α → α → Prop} {a b : α}
    (h : rankedBefore rank R a b) : rank a ≤ rank b := by
  rcases h with h | ⟨h, _⟩
  · exact le_of_lt h
  · exact le_of_eq h

theorem pairwise_insertAsc {α : Type} (rank : α → Int) (R : α → α → Prop) (e : α)
    (l : List α) (hl : l.Pairwise (rankedBefore rank R)) (he : ∀ x ∈ l, R e x) :
    (insertAsc rank e l).Pairwise (rankedBefore rank R) := by
  induction l with
  | nil => exact List.pairwise_singleton _ e
  | cons x xs ih =>
    rw [List.pairwise_cons] at hl
    obtain ⟨hx, hxs⟩ := hl
    unfold insertAsc
    split_ifs with hle
    · rw [List.pairwise_cons]
      refine ⟨?_, List.pairwise_cons.mpr ⟨hx, hxs⟩⟩
      intro y hy
      rcases List.mem_cons.mp hy with rfl | hy'
      · rcases lt_or_eq_of_le hle with h | h
        · exact Or.inl h
        · exact Or.inr ⟨h, he y (by simp)⟩
      · have hxy : rank x ≤ rank y := rankedBefore_rank_le (hx y hy')
        rcases lt_or_le (rank e) (rank y) with h | h
        · exact Or.inl h
        · exact Or.inr ⟨le_antisymm (le_trans hle hxy) h, he y (by simp [hy'])⟩
    · rw [List.pairwise_cons]
      constructor
      · intro y hy
        rcases (mem_insertAsc rank e y xs).mp hy with rfl | hy'
        · exact Or.inl (by omega)
        · exact hx y hy'
      · exact ih hxs (fun y hy => he y (by simp [hy]))

theorem pairwise_sortAsc {α : Type} (rank : α → Int) (R : α → α → Prop) (l : List α)
    (hl : l.Pairwise R) : (sortAsc rank l).Pairwise (rankedBefore rank R) := by
  induction l with
  | nil => exact List.Pairwise.nil
  | cons e rest ih =>
    rw [List.pairwise_cons] at hl
    exact pairwise_insertAsc rank R e (sortAsc rank rest) (ih hl.2)
      (fun x hx => hl.1 x ((mem_sortAsc rank x rest).mp hx))

theorem indexOf_lt_len {a : Str} {l : List Str} (h : a ∈ l) : l.indexOf a < l.length := by
  induction l with
  | nil => exact absurd h (List.not_mem_nil a)
  | cons b l ih =>
    by_cases hb : b = a
    · simp [List.indexOf_cons, hb]
    · have hba : (b == a) = false := by simp [hb]
      rcases List.mem_cons.mp h with rfl | h'
      · exact absurd rfl hb
      · have := ih h'
        simp only [List.indexOf_cons, hba, cond_false, List.length_cons]
        omega

theorem indexOf_append_left {a : Str} {l₁ l₂ : List Str} (h : a ∈ l₁) :
    (l₁ ++ l₂).indexOf a = l₁.indexOf a := by
  induction l₁ with
  | nil => exact absurd h (List.not_mem_nil a)
  | cons b l₁ ih =>
    by_cases hb : b = a
    · simp [List.indexOf_cons, hb]
    · have hba : (b == a) = false := by simp [hb]
      rcases List.mem_cons.mp h with rfl | h'
      · exact absurd rfl hb
      · simp [List.indexOf_cons, hba, ih h']

theorem indexOf_append_right {a : Str} {l₁ l₂ : List Str} (h : a ∉ l₁) :
    (l₁ ++ l₂).indexOf a = l₁.length + l₂.indexOf a := by
  induction l₁ with
  | nil => simp
  | cons b l₁ ih =>
    have hb : b ≠ a := fun hba => h (hba ▸ List.mem_cons_self b l₁)
    have hba : (b == a) = false := by simp [hb]
    have h' : a ∉ l₁ := fun hm => h (List.mem_cons_of_mem b hm)
    simp [List.indexOf_cons, hba, ih h']
    omega

theorem dedupFO_append (ws : List Str) (w : Str) :
    dedupFO (ws ++ [w])
      = if w ∈ dedupFO ws then dedupFO ws else dedupFO ws ++ [w] := by
  unfold dedupFO
  rw [List.foldl_append]
  simp only [List.foldl_cons, List.foldl_nil]

theorem mem_dedupFO (ws : List Str) (a : Str) : a ∈ dedupFO ws ↔ a ∈ ws := by
  induction ws using List.reverseRecOn with
  | nil => simp [dedupFO]
  | append_singleton ws w ih =>
    rw [dedupFO_append]
    split_ifs with h
    · simp only [List.mem_append, List.mem_singleton, ih]
      constructor
      · exact fun h' => Or.inl h'
      · rintro (h' | rfl)
        · exact h'
        · exact ih.mp h
    · simp [List.mem_append, ih]

theorem nodup_dedupFO (ws : List Str) : (dedupFO ws).Nodup := by
  induction ws using List.reverseRecOn with
  | nil => simp [dedupFO]
  | append_singleton ws w ih =>
    rw [dedupFO_append]
    split_ifs with h
    · exact ih
    · rw [List.nodup_append]
      refine ⟨ih, List.nodup_singleton w, ?_⟩
      intro a ha hb
      rw [List.mem_singleton] at hb
      exact h (hb ▸ ha)

theorem pairwise_dedupFO (ws : List Str) :
    (dedupFO ws).Pairwise (fun a b => ws.indexOf a < ws.indexOf b) := by
  induction ws using List.reverseRecOn with
  | nil => simp [dedupFO]
  | append_singleton ws w ih =>
    rw [dedupFO_append]
    have htrans : (dedupFO ws).Pairwise
        (fun a b => (ws ++ [w]).indexOf a < (ws ++ [w]).indexOf b) := by
      refine List.Pairwise.imp_of_mem ?_ ih
      intro a b ha hb hab
      rw [indexOf_append_left ((mem_dedupFO ws a).mp ha),
        indexOf_append_left ((mem_dedupFO ws b).mp hb)]
      exact hab
    split_ifs with h
    · exact htrans
    · rw [List.pairwise_append]
      refine ⟨htrans, List.pairwise_singleton _ w, ?_⟩
      intro a ha b hb
      rw [List.mem_singleton] at hb
      rw [hb]
      have haw : a ∈ ws := (mem_dedupFO ws a).mp ha
      have hw : w ∉ ws := fun hm => h ((mem_dedupFO ws w).mpr hm)
      rw [indexOf_append_left haw, indexOf_append_right hw]
      have h1 := indexOf_lt_len haw
      have h2 : ([w] : List Str).indexOf w = 0 := by
        simp [List.indexOf_cons]
      omega

theorem bump_keys (w : Str) (es : List Entry) :
    (bump w es).map Prod.fst
      = if w ∈ es.map Prod.fst then es.map Prod.fst else es.map Prod.fst ++ [w] := by
  induction es with
  | nil => simp [bump]
  | cons e es ih =>
    obtain ⟨k, n⟩ := e
    by_cases h : k = w
    · subst h
      rw [if_pos (by simp)]
      simp [bump]
    · rw [show bump w ((k, n) :: es) = (k, n) :: bump w es from by simp [bump, h]]
      simp only [List.map_cons, ih]
      by_cases hw : w ∈ es.map Prod.fst
      · rw [if_pos hw, if_pos (List.mem_cons_of_mem k hw)]
      · rw [if_neg hw, if_neg, List.cons_append]
        intro hm
        rcases List.mem_cons.mp hm with hk | hm'
        · exact h hk.symm
        · exact hw hm'

theorem buildFreq_append (ws : List Str) (w : Str) :
    buildFreq (ws ++ [w]) = bump w (buildFreq ws) := by
  unfold buildFreq
  rw [List.foldl_append]
  simp only [List.foldl_cons, List.foldl_nil]

theorem keys_buildFreq (ws : List Str) :
    (buildFreq ws).map Prod.fst = dedupFO ws := by
  induction ws using List.reverseRecOn with
  | nil => rfl
  | append_singleton ws w ih =>
    rw [buildFreq_append, bump_keys, dedupFO_append, ih]

theorem lookupCount_bump_self (w : Str) (es : List Entry) :
    lookupCount w (bump w es) = lookupCount w es + 1 := by
  induction es with
  | nil => simp [bump, lookupCount]
  | cons e es ih =>
    obtain ⟨k, n⟩ := e
    unfold bump
    split_ifs with h
    · subst h
      simp [lookupCount]
    · unfold lookupCount
      rw [if_neg h, if_neg h]
      exact ih

theorem lookupCount_bump_ne (k w : Str) (es : List Entry) (hkw : k ≠ w) :
    lookupCount k (bump w es) = lookupCount k es := by
  have hwk : w ≠ k := fun h => hkw h.symm
  induction es with
  | nil =>
    show lookupCount k [(w, 1)] = lookupCount k []
    unfold lookupCount
    rw [if_neg hwk]
    rfl
  | cons e es ih =>
    obtain ⟨k', n⟩ := e
    unfold bump
    split_ifs with h
    · subst h
      unfold lookupCount
      rw [if_neg (fun h' => hkw h'.symm), if_neg (fun h' => hkw h'.symm)]
    · unfold lookupCount
      by_cases h' : k' = k
      · rw [if_pos h', if_pos h']
      · rw [if_neg h', if_neg h']
        exact ih

theorem lookupCount_buildFreq (ws : List Str) (k : Str) :
    lookupCount k (buildFreq ws) = ws.count k := by
  induction ws using List.reverseRecOn with
  | nil => simp [buildFreq, lookupCount]
  | append_singleton ws w ih =>
    rw [buildFreq_append, List.count_append]
    by_cases h : k = w
    · subst h
      rw [lookupCount_bump_self, ih]
      simp
    · rw [lookupCount_bump_ne k w _ h, ih]
      have : (List.count k [w] : Nat) = 0 := by
        simp [List.count_singleton, h]
      omega

theorem mem_lookupCount {es : List Entry} (hnd : (es.map Prod.fst).Nodup) {e : Entry}
    (he : e ∈ es) : e.2 = lookupCount e.1 es := by
  induction es with
  | nil => exact absurd he (List.not_mem_nil e)
  | cons f es ih =>
    rw [List.map_cons, List.nodup_cons] at hnd
    rcases List.mem_cons.mp he with rfl | he'
    · unfold lookupCount
      rw [if_pos rfl]
    · unfold lookupCount
      rw [if_neg, ih hnd.2 he']
      intro hf
      exact hnd.1 (hf ▸ List.mem_map_of_mem Prod.fst he')

theorem entry_count (ws : List Str) (e : Entry) (he : e ∈ buildFreq ws) :
    e.2 = ws.count e.1 := by
  rw [mem_lookupCount (keys_buildFreq ws ▸ nodup_dedupFO ws) he, lookupCount_buildFreq]

theorem entry_key_mem (ws : List Str) (e : Entry) (he : e ∈ buildFreq ws) : e.1 ∈ ws := by
  have : e.1 ∈ (buildFreq ws).map Prod.fst := List.mem_map_of_mem Prod.fst he
  rw [keys_buildFreq] at this
  exact (mem_dedupFO ws e.1).mp this

theorem mem_entriesOrdered (es : List Entry) (x : Entry) :
    x ∈ entriesOrdered es ↔ x ∈ es := by
  unfold entriesOrdered
  rw [List.mem_append, mem_sortAsc, List.mem_filter, List.mem_filter]
  by_cases h : isArrayIndexKey x.1 <;> simp [h]

theorem pairwise_buildFreq (ws : List Str) :
    (buildFreq ws).Pairwise (fun a b => ws.indexOf a.1 < ws.indexOf b.1) := by
  have h := pairwise_dedupFO ws
  rw [← keys_buildFreq, List.pairwise_map] at h
  exact h

theorem pairwise_entriesOrdered (ts : List Str) (es : List Entry)
    (hR : es.Pairwise (fun a b => ts.indexOf a.1 < ts.indexOf b.1)) :
    (entriesOrdered es).Pairwise (fun a b => enumBefore ts a.1 b.1) := by
  unfold entriesOrdered
  rw [List.pairwise_append]
  refine ⟨?_, ?_, ?_⟩
  · have h1 : (es.filter (fun e => isArrayIndexKey e.1)).Pairwise
        (fun a b => ts.indexOf a.1 < ts.indexOf b.1) :=
      List.Pairwise.sublist (List.filter_sublist es) hR
    have h2 := pairwise_sortAsc (fun e => (digitsToNat e.1 : Int)) _ _ h1
    refine List.Pairwise.imp_of_mem ?_ h2
    intro a b ha hb hab
    have hia : isArrayIndexKey a.1 = true :=
      by simpa using (List.mem_filter.mp ((mem_sortAsc _ a _).mp ha)).2
    have hib : isArrayIndexKey b.1 = true :=
      by simpa using (List.mem_filter.mp ((mem_sortAsc _ b _).mp hb)).2
    rcases hab with h | ⟨heq, hR'⟩
    · have h' : (digitsToNat a.1 : Int) < (digitsToNat b.1 : Int) := h
      exact Or.inl ⟨hia, hib, Or.inl (by exact_mod_cast h')⟩
    · have h' : (digitsToNat a.1 : Int) = (digitsToNat b.1 : Int) := heq
      exact Or.inl ⟨hia, hib, Or.inr ⟨by exact_mod_cast h', hR'⟩⟩
  · have h1 : (es.filter (fun e => !(isArrayIndexKey e.1))).Pairwise
        (fun a b => ts.indexOf a.1 < ts.indexOf b.1) :=
      List.Pairwise.sublist (List.filter_sublist es) hR
    refine List.Pairwise.imp_of_mem ?_ h1
    intro a b ha hb hab
    have hna : isArrayIndexKey a.1 = false := by
      have := (List.mem_filter.mp ha).2
      simpa using this
    have hnb : isArrayIndexKey b.1 = false := by
      have := (List.mem_filter.mp hb).2
      simpa using this
    exact Or.inr (Or.inr ⟨hna, hnb, hab⟩)
  · intro a ha b hb
    have hia : isArrayIndexKey a.1 = true :=
      by simpa using (List.mem_filter.mp ((mem_sortAsc _ a _).mp ha)).2
    have hnb : isArrayIndexKey b.1 = false := by
      have := (List.mem_filter.mp hb).2
      simpa using this
    exact Or.inr (Or.inl ⟨hia, hnb⟩)

theorem splitFlag_subset (p : Char → Bool) (l : List Char) :
    ∀ (acc : List Char) (sep : Bool), ∀ w ∈ splitFlag p l acc sep, ∀ c ∈ w,
      c ∈ acc ∨ c ∈ l := by
  induction l with
  | nil =>
    intro acc sep w hw c hc
    simp only [splitFlag, List.mem_singleton] at hw
    subst hw
    exact Or.inl (by simpa using hc)
  | cons d ds ih =>
    intro acc sep w hw c hc
    unfold splitFlag at hw
    split_ifs at hw with hp hsep
    · rcases ih [] true w hw c hc with h | h
      · exact absurd h (List.not_mem_nil c)
      · exact Or.inr (List.mem_cons_of_mem d h)
    · rcases List.mem_cons.mp hw with rfl | hw'
      · exact Or.inl (by simpa using hc)
      · rcases ih [] true w hw' c hc with h | h
        · exact absurd h (List.not_mem_nil c)
        · exact Or.inr (List.mem_cons_of_mem d h)
    · rcases ih (d :: acc) false w hw c hc with h | h
      · rcases List.mem_cons.mp h with hcd | h'
        · rw [hcd]
          exact Or.inr (List.mem_cons_self d ds)
        · exact Or.inl h'
      · exact Or.inr (List.mem_cons_of_mem d h)

theorem isUpperAZ_jsToLower (c : Char) : isUpperAZ (jsToLower c) = false := by
  unfold jsToLower
  split_ifs with h
  · have hv : (Char.ofNat (c.toNat + 32)).toNat = c.toNat + 32 := by
      unfold Char.ofNat
      split
      · rfl
      · next hvv => exact absurd (Or.inl (by omega)) hvv
    unfold isUpperAZ
    rw [if_neg]
    intro hcon
    rw [hv] at hcon
    omega
  · unfold isUpperAZ
    exact if_neg h

theorem tokens_no_upper (text : Str) (w : Str) (hw : w ∈ tokens text) :
    ∀ c ∈ w, isUpperAZ c = false := by
  intro c hc
  unfold tokens at hw
  have hw' := (List.mem_filter.mp hw).1
  rcases splitFlag_subset isSpaceChar _ [] false w hw' c hc with h | h
  · exact absurd h (List.not_mem_nil c)
  · rw [List.mem_map] at h
    obtain ⟨c₀, hc₀, rfl⟩ := h
    rw [lower, List.mem_map] at hc₀
    obtain ⟨c₁, _, rfl⟩ := hc₀
    by_cases hb : (isWordChar (jsToLower c₁) || isSpaceChar (jsToLower c₁) : Bool)
    · rw [if_pos hb]
      exact isUpperAZ_jsToLower c₁
    · rw [if_neg hb]
      rfl

theorem tokens_filter_props (text : Str) (w : Str) (hw : w ∈ tokens text) :
    3 < w.length ∧ w ∉ commonWords := by
  unfold tokens at hw
  have h := (List.mem_filter.mp hw).2
  rw [Bool.and_eq_true, decide_eq_true_eq, Bool.not_eq_true'] at h
  refine ⟨h.1, fun hm => ?_⟩
  have : commonWords.contains w = true := List.elem_iff.mpr hm
  rw [this] at h
  exact Bool.noConfusion h.2

theorem mem_extractKeywords_entry (text : Str) (w : Str) (hw : w ∈ extractKeywords text) :
    ∃ e : Entry, e ∈ buildFreq (tokens text) ∧ e.1 = w := by
  unfold extractKeywords at hw
  rw [List.mem_map] at hw
  obtain ⟨e, he, rfl⟩ := hw
  have h1 : e ∈ sortAsc (fun e => -(e.2 : Int)) (entriesOrdered (buildFreq (tokens text))) :=
    List.take_subset 50 _ he
  rw [mem_sortAsc, mem_entriesOrdered] at h1
  exact ⟨e, h1, rfl⟩

/-- C9 is false on the code: for the document "abcd 1000" both tokens have
frequency 1 and "abcd" occurs first in the token stream, yet the extractor
returns "1000" first — JavaScript objects enumerate array-index-like keys
before the other keys, so the frequency tie is *not* broken by
first-occurrence order. -/
theorem c9_counterexample :
    extractKeywords (("abcd 1000").data) = [ ("1000").data, ("abcd").data ] ∧
    tokens (("abcd 1000").data) = [ ("abcd").data, ("1000").data ] ∧
    tokCount (("abcd 1000").data) (("abcd").data)
      = tokCount (("abcd 1000").data) (("1000").data) := by
  refine ⟨by decide, by decide, by decide⟩

/-- C9 as amended: the keyword extractor returns at most 50 tokens, each a
non-stop-word of length > 3 with no uppercase letter, ordered by strictly
descending frequency with ties in `Object.entries` enumeration order:
array-index-like tokens (canonical numerals < 2^32−1) first in ascending
numeric order, then the remaining tokens in first-occurrence order. -/
theorem c9_keyword_contract (text : Str) :
    (extractKeywords text).length ≤ 50 ∧
    (∀ w ∈ extractKeywords text, w ∈ tokens text ∧ 3 < w.length ∧ w ∉ commonWords ∧
      ∀ c ∈ w, isUpperAZ c = false) ∧
    (extractKeywords text).Pairwise (keywordOrdered text) := by
  refine ⟨?_, ?_, ?_⟩
  · unfold extractKeywords
    rw [List.length_map, List.length_take]
    exact min_le_left _ _
  · intro w hw
    obtain ⟨e, he, rfl⟩ := mem_extractKeywords_entry text w hw
    have hmem : e.1 ∈ tokens text := entry_key_mem _ e he
    obtain ⟨h3, hcw⟩ := tokens_filter_props text e.1 hmem
    exact ⟨hmem, h3, hcw, tokens_no_upper text e.1 hmem⟩
  · have hfirst := pairwise_buildFreq (tokens text)
    have henum := pairwise_entriesOrdered (tokens text) _ hfirst
    have hsorted := pairwise_sortAsc (fun e => -(e.2 : Int)) _ _ henum
    have htake := List.Pairwise.sublist (List.take_sublist 50 _) hsorted
    unfold extractKeywords
    rw [List.pairwise_map]
    refine List.Pairwise.imp_of_mem ?_ htake
    intro a b ha hb hab
    have hca : a.2 = tokCount text a.1 := by
      have h1 : a ∈ buildFreq (tokens text) := by
        have := List.take_subset 50 _ ha
        rw [mem_sortAsc, mem_entriesOrdered] at this
        exact this
      exact entry_count _ a h1
    have hcb : b.2 = tokCount text b.1 := by
      have h1 : b ∈ buildFreq (tokens text) := by
        have := List.take_subset 50 _ hb
        rw [mem_sortAsc, mem_entriesOrdered] at this
        exact this
      exact entry_count _ b h1
    unfold keywordOrdered
    rw [← hca, ← hcb]
    rcases hab with h | ⟨heq, hQ⟩
    · left
      have h' : -(a.2 : Int) < -(b.2 : Int) := h
      omega
    · right
      have h' : -(a.2 : Int) = -(b.2 : Int) := heq
      exact ⟨by omega, hQ⟩

/-- Witness for C9's amended statement: "parties" is among the keywords of
the Scenario-A document and has the guaranteed shape. -/
theorem c9_witness :
    ("parties").data ∈ tokens docA ∧ 3 < (("parties").data).length ∧
    ("parties").data ∉ commonWords ∧
    ∀ c ∈ ("parties").data, isUpperAZ c = false :=
  (c9_keyword_contract docA).2.1 (("parties").data) (by decide)

/-- C10: the BASIC analyzer caps suggestions at 20 (stricter than the
spec's 25) but never truncates issues — their number is exactly one per
fired language rule plus one per missing section plus one per flagged
policy, so with `B + 1` copies of a policy whose keywords the empty
document does not cover, the issue list exceeds any bound `B`. -/
theorem c10_issue_growth :
    (∀ (text : Str) (pols : List Policy),
      ((performBasicAnalysis text pols).suggestions.getD []).length ≤ 20) ∧
    (∀ (text : Str) (pols : List Policy),
      ((performBasicAnalysis text pols).issues.getD []).length
        = (firedRules text).length + (missingSections text).length
          + (flaggedPolicies text pols).length) ∧
    (∀ B : Nat,
      B < ((performBasicAnalysis [] (List.replicate (B + 1) polZ)).issues.getD
        []).length) := by
  refine ⟨?_, ?_, ?_⟩
  · intro text pols
    simp only [performBasicAnalysis, Option.getD_some]
    rw [List.length_take]
    exact min_le_left _ _
  · intro text pols
    simp only [performBasicAnalysis, Option.getD_some, List.length_append,
      langIssues, structIssues, polIssues, List.length_map]
  · intro B
    have hf : flaggedPolicies [] (List.replicate (B + 1) polZ)
        = List.replicate (B + 1) polZ := by
      unfold flaggedPolicies
      rw [List.filter_replicate, if_pos (by decide)]
    simp only [performBasicAnalysis, Option.getD_some, List.length_append,
      langIssues, structIssues, polIssues, List.length_map, hf,
      List.length_replicate]
    omega

end SCE
